import Mathlib

/-!
Shallow embedding of the ink! ERC-20 contract in `src/lib.rs` (module `erc20`),
together with proofs of the specification's claims about it.

Modelling conventions:
* `AccountId` (an opaque fixed-size identifier) is modelled as `Nat`.
* `Balance` is the ink! default `u128`; it is modelled as `Nat`, with the
  receiving-side addition reduced modulo `2 ^ 128` (u128 wrap-around), which is
  where overflow could matter.  The debit `from_balance - value` is guarded by
  the `from_balance < value` check, so plain `Nat` subtraction is exact there.
* `ink::storage::Mapping<AccountId, Balance>` is modelled as an association
  list in which `insert` overwrites the entry for its key.
* Event emission (`Self::env().emit_event(..)`) is modelled by returning the
  list of records emitted by the call, alongside the result and the new state.
* The ambient caller (`Self::env().caller()`) is threaded as an explicit
  argument to `new` and `transfer`.
-/

/-- The u128 modulus: `Balance` values are 128-bit unsigned integers. -/
def UINT128_LIMIT : Nat := 2 ^ 128

/-- Type `AccountId`: opaque account identifier, modelled as `Nat`. -/
abbrev AccountId := Nat

/-- Type `Balance` (`u128`), modelled as `Nat`. -/
abbrev Balance := Nat

/-- Rust `enum Error { InsufficientBalance }` from src/lib.rs. -/
inductive Error where
  | InsufficientBalance
deriving DecidableEq

/-- Rust `pub type Result<T> = core::result::Result<T, Error>` from src/lib.rs. -/
abbrev Result (T : Type) := Except Error T

/-- The `Transfer` event struct: `from: Option<AccountId>`, `to: Option<AccountId>`,
`value: Balance`. -/
structure Transfer where
  «from» : Option Nat
  «to» : Option Nat
  value : Nat
deriving DecidableEq

/-- The storage mapping `Mapping<AccountId, Balance>`, as an association list. -/
abbrev Mapping := List (Nat × Nat)

/-- The entries of `m` whose key is different from `k`. -/
def filterOut (m : Mapping) (k : Nat) : Mapping :=
  m.filter (fun p => p.1 != k)

/-- Method `Mapping::insert`: store `v` under key `k`, overwriting any previous entry. -/
def mInsert (m : Mapping) (k : Nat) (v : Nat) : Mapping :=
  (k, v) :: filterOut m k

/-- Method `Mapping::get`: `some` stored value, or `none` when the key is absent. -/
def mGet (m : Mapping) (k : Nat) : Option Nat :=
  (m.find? (fun p => p.1 == k)).map Prod.snd

/-- The contract storage struct `Erc20 { total_supply, balances }`. -/
structure Erc20 where
  total_supply : Nat
  balances : Mapping
deriving DecidableEq

/-- Constructor `Erc20::new(total_supply)`: insert the full supply under the caller's key and
emit a mint record `Transfer { from: None, to: Some(caller), value: total_supply }`.
Returns the constructed state together with the emitted records. -/
def Erc20.new (caller : Nat) (total_supply : Nat) : Erc20 × List Transfer :=
  let balances := mInsert [] caller total_supply
  ({ total_supply := total_supply, balances := balances },
   [{ «from» := none, «to» := some caller, value := total_supply }])

/-- Message `Erc20::total_supply(&self)`: the stored total supply. -/
def Erc20.totalSupply (s : Erc20) : Nat :=
  s.total_supply

/-- Message `Erc20::balance_of(&self, owner)`: `self.balances.get(owner).unwrap_or_default()`. -/
def Erc20.balance_of (s : Erc20) (owner : Nat) : Nat :=
  (mGet s.balances owner).getD 0

/-- Method `Erc20::transfer_from_to(&mut self, from, to, value)`.  Mirrors the source:
read `from_balance`, fail with `InsufficientBalance` when `from_balance < value`,
otherwise store `from_balance - value` under `from`, re-read `to`'s balance from
the updated state, store `to_balance + value` (u128 arithmetic) under `to`, and
emit one `Transfer` record.  Returns `(result, new state, emitted records)`. -/
def Erc20.transfer_from_to (s : Erc20) (f «to» : Nat) (value : Nat) :
    Result Unit × Erc20 × List Transfer :=
  let from_balance := s.balance_of f
  if from_balance < value then
    (Except.error Error.InsufficientBalance, s, [])
  else
    let s1 : Erc20 := { s with balances := mInsert s.balances f (from_balance - value) }
    let to_balance := s1.balance_of «to»
    let s2 : Erc20 :=
      { s1 with balances := mInsert s1.balances «to» ((to_balance + value) % UINT128_LIMIT) }
    (Except.ok (), s2, [{ «from» := some f, «to» := some «to», value := value }])

/-- Message `Erc20::transfer(&mut self, to, value)`: the entry point; the ambient caller
becomes the source account of `transfer_from_to`. -/
def Erc20.transfer (s : Erc20) (caller «to» : Nat) (value : Nat) :
    Result Unit × Erc20 × List Transfer :=
  s.transfer_from_to caller «to» value

/-- Sum of all balances stored in the mapping. -/
def sumVals (m : Mapping) : Nat :=
  (m.map Prod.snd).sum

/-- The balance a mapping assigns to `k`: stored value, or `0` when absent. -/
def balAt (m : Mapping) (k : Nat) : Nat :=
  (mGet m k).getD 0

/-- The mapping's keys are pairwise distinct. -/
def keysNodup (m : Mapping) : Prop :=
  (m.map Prod.fst).Nodup

/-- All stored balances are u128-representable. -/
def WF (s : Erc20) : Prop :=
  ∀ p ∈ s.balances, p.2 < UINT128_LIMIT

/-- The documented data-model invariant of a ledger state: the stored balances
sum to `total_supply`, keys are unique, and the supply is a u128 value. -/
def LedgerInv (s : Erc20) : Prop :=
  sumVals s.balances = s.total_supply ∧ keysNodup s.balances ∧
    s.total_supply < UINT128_LIMIT

instance (m : Mapping) : Decidable (keysNodup m) := by
  unfold keysNodup
  infer_instance

instance (s : Erc20) : Decidable (WF s) := by
  unfold WF
  infer_instance

instance (s : Erc20) : Decidable (LedgerInv s) := by
  unfold LedgerInv
  infer_instance

/-- States reachable by construction followed by any sequence of `transfer`
calls (successful or failed). -/
inductive Reachable : Erc20 → Prop where
  | init (caller : Nat) (ts : Nat) (h : ts < UINT128_LIMIT) :
      Reachable (Erc20.new caller ts).1
  | step (s : Erc20) (caller «to» : Nat) (value : Nat) (hs : Reachable s) :
      Reachable (s.transfer caller «to» value).2.1

/-! ### Association-list lemmas -/

theorem mGet_cons_self (p : Nat × Nat) (t : Mapping) (q : Nat)
    (h : p.1 = q) : mGet (p :: t) q = some p.2 := by
  unfold mGet
  rw [List.find?_cons_of_pos _ (by simp [h])]
  rfl

theorem mGet_cons_ne (p : Nat × Nat) (t : Mapping) (q : Nat)
    (h : p.1 ≠ q) : mGet (p :: t) q = mGet t q := by
  unfold mGet
  rw [List.find?_cons_of_neg _ (by simp [h])]

theorem filterOut_cons_self (p : Nat × Nat) (t : Mapping) (k : Nat)
    (h : p.1 = k) : filterOut (p :: t) k = filterOut t k := by
  unfold filterOut
  rw [List.filter_cons_of_neg (by simp [h])]

theorem filterOut_cons_ne (p : Nat × Nat) (t : Mapping) (k : Nat)
    (h : p.1 ≠ k) : filterOut (p :: t) k = p :: filterOut t k := by
  unfold filterOut
  rw [List.filter_cons_of_pos (by simp [h])]

theorem mGet_filterOut (m : Mapping) (k q : Nat) (h : q ≠ k) :
    mGet (filterOut m k) q = mGet m q := by
  induction m with
  | nil => rfl
  | cons p t ih =>
    by_cases hp : p.1 = k
    · rw [filterOut_cons_self p t k hp, mGet_cons_ne p t q (by rw [hp]; exact fun e => h e.symm)]
      exact ih
    · rw [filterOut_cons_ne p t k hp]
      by_cases hq : p.1 = q
      · rw [mGet_cons_self p _ q hq, mGet_cons_self p t q hq]
      · rw [mGet_cons_ne p _ q hq, mGet_cons_ne p t q hq]
        exact ih

theorem mGet_mInsert_self (m : Mapping) (k : Nat) (v : Nat) :
    mGet (mInsert m k v) k = some v := by
  unfold mInsert
  rw [mGet_cons_self (k, v) _ k rfl]

theorem mGet_mInsert_ne (m : Mapping) (k q : Nat) (v : Nat) (h : q ≠ k) :
    mGet (mInsert m k v) q = mGet m q := by
  unfold mInsert
  rw [mGet_cons_ne (k, v) _ q (fun e => h e.symm), mGet_filterOut m k q h]

theorem balAt_mInsert_self (m : Mapping) (k : Nat) (v : Nat) :
    balAt (mInsert m k v) k = v := by
  simp [balAt, mGet_mInsert_self]

theorem balAt_mInsert_ne (m : Mapping) (k q : Nat) (v : Nat) (h : q ≠ k) :
    balAt (mInsert m k v) q = balAt m q := by
  simp [balAt, mGet_mInsert_ne m k q v h]

theorem balAt_cons_self (p : Nat × Nat) (t : Mapping) (q : Nat)
    (h : p.1 = q) : balAt (p :: t) q = p.2 := by
  simp [balAt, mGet_cons_self p t q h]

theorem balAt_cons_ne (p : Nat × Nat) (t : Mapping) (q : Nat)
    (h : p.1 ≠ q) : balAt (p :: t) q = balAt t q := by
  simp [balAt, mGet_cons_ne p t q h]

theorem sumVals_cons (p : Nat × Nat) (t : Mapping) :
    sumVals (p :: t) = p.2 + sumVals t := by
  simp [sumVals]

theorem sumVals_mInsert (m : Mapping) (k : Nat) (v : Nat) :
    sumVals (mInsert m k v) = v + sumVals (filterOut m k) := by
  simp [mInsert, sumVals]

theorem filterOut_eq_self_of_not_mem (m : Mapping) (k : Nat)
    (h : k ∉ m.map Prod.fst) : filterOut m k = m := by
  unfold filterOut
  apply List.filter_eq_self.mpr
  intro p hp
  have hmem : p.1 ∈ m.map Prod.fst := List.mem_map_of_mem Prod.fst hp
  simp only [bne_iff_ne, ne_eq]
  intro e
  exact h (e ▸ hmem)

theorem sumVals_split (m : Mapping) (k : Nat) (h : keysNodup m) :
    sumVals m = balAt m k + sumVals (filterOut m k) := by
  induction m with
  | nil => rfl
  | cons p t ih =>
    have hcons : (p.1 :: t.map Prod.fst).Nodup := h
    have hnd := List.nodup_cons.mp hcons
    by_cases hp : p.1 = k
    · rw [sumVals_cons, filterOut_cons_self p t k hp,
        filterOut_eq_self_of_not_mem t k (hp ▸ hnd.1), balAt_cons_self p t k hp]
    · rw [sumVals_cons, filterOut_cons_ne p t k hp, balAt_cons_ne p t k hp,
        sumVals_cons, ih hnd.2]
      omega

theorem balAt_le_sumVals (m : Mapping) (k : Nat) : balAt m k ≤ sumVals m := by
  induction m with
  | nil => exact Nat.le_refl 0
  | cons p t ih =>
    rw [sumVals_cons]
    by_cases hp : p.1 = k
    · rw [balAt_cons_self p t k hp]
      exact Nat.le_add_right _ _
    · rw [balAt_cons_ne p t k hp]
      exact Nat.le_trans ih (Nat.le_add_left _ _)

theorem keysNodup_mInsert (m : Mapping) (k : Nat) (v : Nat)
    (h : keysNodup m) : keysNodup (mInsert m k v) := by
  unfold keysNodup mInsert
  rw [List.map_cons]
  refine List.nodup_cons.mpr ⟨?_, ?_⟩
  · intro hmem
    obtain ⟨p, hp, hpk⟩ := List.mem_map.mp hmem
    have hne := List.of_mem_filter hp
    simp [hpk] at hne
  · exact (List.Sublist.map Prod.fst (List.filter_sublist m)).nodup h

/-! ### Basic facts about the contract operations -/

theorem balance_of_eq_balAt (s : Erc20) (a : Nat) :
    s.balance_of a = balAt s.balances a := rfl

theorem UINT128_LIMIT_pos : 0 < UINT128_LIMIT := by
  unfold UINT128_LIMIT
  positivity

theorem balance_of_lt_of_WF (s : Erc20) (h : WF s) (a : Nat) :
    s.balance_of a < UINT128_LIMIT := by
  unfold Erc20.balance_of
  cases hm : mGet s.balances a with
  | none => simpa using UINT128_LIMIT_pos
  | some v =>
    simp only [Option.getD_some]
    obtain ⟨p, hp, hpv⟩ : ∃ p, List.find? (fun p => p.1 == a) s.balances = some p ∧ p.2 = v := by
      unfold mGet at hm
      cases hf : List.find? (fun p => p.1 == a) s.balances with
      | none => rw [hf] at hm; simp at hm
      | some p =>
        rw [hf] at hm
        simp at hm
        exact ⟨p, rfl, hm⟩
    exact hpv ▸ h p (List.mem_of_find?_eq_some hp)

theorem transfer_eq_error (s : Erc20) (f q : Nat) (v : Nat)
    (h : s.balance_of f < v) :
    s.transfer f q v = (Except.error Error.InsufficientBalance, s, []) := by
  simp only [Erc20.transfer, Erc20.transfer_from_to]
  rw [if_pos h]

theorem transfer_eq_ok (s : Erc20) (f q : Nat) (v : Nat)
    (h : ¬ s.balance_of f < v) :
    s.transfer f q v =
      (Except.ok (),
       { s with balances :=
          (mInsert (mInsert s.balances f (s.balance_of f - v)) q
            ((balAt (mInsert s.balances f (s.balance_of f - v)) q + v) % UINT128_LIMIT)) },
       [{ «from» := some f, «to» := some q, value := v }]) := by
  simp only [Erc20.transfer, Erc20.transfer_from_to]
  rw [if_neg h]
  rfl

theorem transfer_err_result (s : Erc20) (f q : Nat) (v : Nat)
    (h : s.balance_of f < v) :
    (s.transfer f q v).1 = Except.error Error.InsufficientBalance := by
  rw [transfer_eq_error s f q v h]

theorem transfer_err_state (s : Erc20) (f q : Nat) (v : Nat)
    (h : s.balance_of f < v) : (s.transfer f q v).2.1 = s := by
  rw [transfer_eq_error s f q v h]

theorem transfer_err_events (s : Erc20) (f q : Nat) (v : Nat)
    (h : s.balance_of f < v) : (s.transfer f q v).2.2 = [] := by
  rw [transfer_eq_error s f q v h]

theorem transfer_ok_result (s : Erc20) (f q : Nat) (v : Nat)
    (h : ¬ s.balance_of f < v) : (s.transfer f q v).1 = Except.ok () := by
  rw [transfer_eq_ok s f q v h]

theorem transfer_ok_state (s : Erc20) (f q : Nat) (v : Nat)
    (h : ¬ s.balance_of f < v) :
    (s.transfer f q v).2.1 =
      { s with balances :=
          (mInsert (mInsert s.balances f (s.balance_of f - v)) q
            ((balAt (mInsert s.balances f (s.balance_of f - v)) q + v) % UINT128_LIMIT)) } := by
  rw [transfer_eq_ok s f q v h]

theorem transfer_ok_events (s : Erc20) (f q : Nat) (v : Nat)
    (h : ¬ s.balance_of f < v) :
    (s.transfer f q v).2.2 = [{ «from» := some f, «to» := some q, value := v }] := by
  rw [transfer_eq_ok s f q v h]

theorem transfer_ok_balance (s : Erc20) (f q a : Nat) (v : Nat)
    (h : ¬ s.balance_of f < v) :
    (s.transfer f q v).2.1.balance_of a =
      balAt (mInsert (mInsert s.balances f (s.balance_of f - v)) q
        ((balAt (mInsert s.balances f (s.balance_of f - v)) q + v) % UINT128_LIMIT)) a := by
  rw [balance_of_eq_balAt, transfer_ok_state s f q v h]

theorem transfer_success_sum (s : Erc20) (f q : Nat) (v : Nat)
    (hnd : keysNodup s.balances) (h : ¬ s.balance_of f < v) :
    balAt (mInsert s.balances f (s.balance_of f - v)) q + v ≤ sumVals s.balances := by
  have hb : v ≤ balAt s.balances f := by
    rw [← balance_of_eq_balAt]
    omega
  have hsplit := sumVals_split s.balances f hnd
  have hs1 : sumVals (mInsert s.balances f (s.balance_of f - v)) =
      sumVals s.balances - v := by
    rw [sumVals_mInsert, balance_of_eq_balAt]
    omega
  have hle := balAt_le_sumVals (mInsert s.balances f (s.balance_of f - v)) q
  have hfs := balAt_le_sumVals s.balances f
  rw [hs1] at hle
  omega

theorem transfer_preserves_inv (s : Erc20) (f q : Nat) (v : Nat)
    (h : LedgerInv s) : LedgerInv (s.transfer f q v).2.1 := by
  obtain ⟨hsum, hnd, hts⟩ := h
  by_cases hv : s.balance_of f < v
  · rw [transfer_err_state s f q v hv]
    exact ⟨hsum, hnd, hts⟩
  · rw [transfer_ok_state s f q v hv]
    have hbound := transfer_success_sum s f q v hnd hv
    have hnd1 : keysNodup (mInsert s.balances f (s.balance_of f - v)) :=
      keysNodup_mInsert _ _ _ hnd
    have hb : v ≤ balAt s.balances f := by
      rw [← balance_of_eq_balAt]
      omega
    have hsplit := sumVals_split s.balances f hnd
    have hs1 : sumVals (mInsert s.balances f (s.balance_of f - v)) =
        sumVals s.balances - v := by
      rw [sumVals_mInsert, balance_of_eq_balAt]
      omega
    have hmod : (balAt (mInsert s.balances f (s.balance_of f - v)) q + v) % UINT128_LIMIT =
        balAt (mInsert s.balances f (s.balance_of f - v)) q + v :=
      Nat.mod_eq_of_lt (by omega)
    refine ⟨?_, keysNodup_mInsert _ _ _ hnd1, hts⟩
    show sumVals (mInsert (mInsert s.balances f (s.balance_of f - v)) q
      ((balAt (mInsert s.balances f (s.balance_of f - v)) q + v) % UINT128_LIMIT)) =
        s.total_supply
    rw [sumVals_mInsert, hmod]
    have hsplit1 := sumVals_split (mInsert s.balances f (s.balance_of f - v)) q hnd1
    omega

theorem WF_mInsert_mem (m : Mapping) (k : Nat) (v : Nat)
    (hv : v < UINT128_LIMIT) (hm : ∀ p ∈ m, p.2 < UINT128_LIMIT) :
    ∀ p ∈ mInsert m k v, p.2 < UINT128_LIMIT := by
  intro p hp
  rcases List.mem_cons.mp hp with h1 | h2
  · rw [h1]
    exact hv
  · exact hm p (List.mem_of_mem_filter h2)

theorem transfer_preserves_WF (s : Erc20) (f q : Nat) (v : Nat)
    (h : WF s) : WF (s.transfer f q v).2.1 := by
  by_cases hv : s.balance_of f < v
  · rw [transfer_err_state s f q v hv]
    exact h
  · rw [transfer_ok_state s f q v hv]
    refine WF_mInsert_mem _ _ _ (Nat.mod_lt _ UINT128_LIMIT_pos) ?_
    refine WF_mInsert_mem _ _ _ ?_ h
    have := balance_of_lt_of_WF s h f
    omega

theorem reachable_inv (s : Erc20) (h : Reachable s) : LedgerInv s := by
  induction h with
  | init caller ts hts =>
    refine ⟨?_, ?_, hts⟩
    · simp [Erc20.new, sumVals, mInsert, filterOut]
    · simp [Erc20.new, keysNodup, mInsert, filterOut]
  | step s caller q v hs ih => exact transfer_preserves_inv s caller q v ih

theorem reachable_WF (s : Erc20) (h : Reachable s) : WF s := by
  induction h with
  | init caller ts hts =>
    intro p hp
    have hps : p ∈ [(caller, ts)] := hp
    rw [List.mem_singleton.mp hps]
    exact hts
  | step s caller q v hs ih => exact transfer_preserves_WF s caller q v ih

theorem transfer_ok_mGet (s : Erc20) (f q a v : Nat) (h : ¬ s.balance_of f < v) :
    mGet (s.transfer f q v).2.1.balances a =
      mGet (mInsert (mInsert s.balances f (s.balance_of f - v)) q
        ((balAt (mInsert s.balances f (s.balance_of f - v)) q + v) % UINT128_LIMIT)) a := by
  rw [transfer_ok_state s f q v h]

/-! ### The claims -/

/-- C1: Conservation invariant: in every ledger state reachable by construction
followed by any sequence of `transfer` calls (successful or failed), the sum of
all balances stored in the `balances` mapping equals `total_supply`. -/
theorem conservation_reachable (s : Erc20) (h : Reachable s) :
    sumVals s.balances = s.total_supply :=
  (reachable_inv s h).1

theorem conservation_reachable_witness :
    sumVals (((Erc20.new 0 100).1.transfer 0 1 30).2.1.transfer 1 0 500).2.1.balances =
      (((Erc20.new 0 100).1.transfer 0 1 30).2.1.transfer 1 0 500).2.1.total_supply :=
  conservation_reachable _
    (Reachable.step _ 1 0 500 (Reachable.step _ 0 1 30 (Reachable.init 0 100 (by decide))))

/-- C2: success postcondition of `transfer`.  A "ledger state" is one satisfying
the documented data-model invariant `LedgerInv` (every reachable state does, by
`reachable_inv`): with `to ≠ caller` and the caller's balance at least `amount`,
the call returns `Ok`, the caller's balance decreases by `amount`, `to`'s
balance increases by `amount`, and every other balance is unchanged. -/
theorem transfer_success_postcondition (s : Erc20) (caller q amount : Nat)
    (hinv : LedgerInv s) (hne : q ≠ caller) (hbal : amount ≤ s.balance_of caller) :
    (s.transfer caller q amount).1 = Except.ok () ∧
    (s.transfer caller q amount).2.1.balance_of caller = s.balance_of caller - amount ∧
    (s.transfer caller q amount).2.1.balance_of q = s.balance_of q + amount ∧
    (∀ a, a ≠ caller → a ≠ q →
      (s.transfer caller q amount).2.1.balance_of a = s.balance_of a) := by
  obtain ⟨hsum, hnd, hts⟩ := hinv
  have hv : ¬ s.balance_of caller < amount := by omega
  have hbound := transfer_success_sum s caller q amount hnd hv
  have hmod : (balAt (mInsert s.balances caller (s.balance_of caller - amount)) q +
        amount) % UINT128_LIMIT =
      balAt (mInsert s.balances caller (s.balance_of caller - amount)) q + amount :=
    Nat.mod_eq_of_lt (by omega)
  refine ⟨transfer_ok_result s caller q amount hv, ?_, ?_, ?_⟩
  · rw [transfer_ok_balance s caller q caller amount hv,
      balAt_mInsert_ne _ q caller _ (fun e => hne e.symm), balAt_mInsert_self]
  · rw [transfer_ok_balance s caller q q amount hv, balAt_mInsert_self, hmod,
      balAt_mInsert_ne s.balances caller q _ hne, ← balance_of_eq_balAt]
  · intro a hac haq
    rw [transfer_ok_balance s caller q a amount hv, balAt_mInsert_ne _ q a _ haq,
      balAt_mInsert_ne s.balances caller a _ hac, ← balance_of_eq_balAt]

theorem transfer_success_postcondition_witness :
    ((Erc20.new 0 100).1.transfer 0 1 30).1 = Except.ok () ∧
    ((Erc20.new 0 100).1.transfer 0 1 30).2.1.balance_of 0 =
      (Erc20.new 0 100).1.balance_of 0 - 30 ∧
    ((Erc20.new 0 100).1.transfer 0 1 30).2.1.balance_of 1 =
      (Erc20.new 0 100).1.balance_of 1 + 30 ∧
    (∀ a, a ≠ 0 → a ≠ 1 →
      ((Erc20.new 0 100).1.transfer 0 1 30).2.1.balance_of a =
        (Erc20.new 0 100).1.balance_of a) :=
  transfer_success_postcondition (Erc20.new 0 100).1 0 1 30
    (by decide) (by decide) (by decide)

/-- C3: `transfer` returns the `InsufficientBalance` error iff the caller's
balance is strictly below the requested amount; in that case the whole ledger
state (total supply and all balances) is unmodified; and no result other than
`Ok` or this single error is ever produced. -/
theorem transfer_error_iff_atomic (s : Erc20) (caller q v : Nat) :
    ((s.transfer caller q v).1 = Except.error Error.InsufficientBalance ↔
      s.balance_of caller < v) ∧
    (s.balance_of caller < v → (s.transfer caller q v).2.1 = s) ∧
    ((s.transfer caller q v).1 = Except.ok () ∨
      (s.transfer caller q v).1 = Except.error Error.InsufficientBalance) := by
  by_cases hv : s.balance_of caller < v
  · rw [transfer_err_result s caller q v hv, transfer_err_state s caller q v hv]
    exact ⟨⟨fun _ => hv, fun _ => rfl⟩, fun _ => rfl, Or.inr rfl⟩
  · rw [transfer_ok_result s caller q v hv]
    exact ⟨⟨fun he => (nomatch he), fun hlt => absurd hlt hv⟩,
      fun hlt => absurd hlt hv, Or.inl rfl⟩

theorem transfer_error_iff_atomic_witness :
    ((Erc20.new 0 5).1.transfer 0 1 7).2.1 = (Erc20.new 0 5).1 ∧
    ((Erc20.new 0 5).1.transfer 0 1 7).1 = Except.error Error.InsufficientBalance :=
  ⟨(transfer_error_iff_atomic (Erc20.new 0 5).1 0 1 7).2.1 (by decide),
   (transfer_error_iff_atomic (Erc20.new 0 5).1 0 1 7).1.mpr (by decide)⟩

/-- C4: self-transfer with sufficient balance succeeds and leaves the caller's
balance unchanged.  The state is assumed u128 well-formed (`WF`, every stored
balance is a u128 value); every reachable state satisfies this by
`reachable_WF`. -/
theorem self_transfer_neutral (s : Erc20) (caller amount : Nat)
    (hwf : WF s) (hbal : amount ≤ s.balance_of caller) :
    (s.transfer caller caller amount).1 = Except.ok () ∧
    (s.transfer caller caller amount).2.1.balance_of caller = s.balance_of caller := by
  have hv : ¬ s.balance_of caller < amount := by omega
  refine ⟨transfer_ok_result s caller caller amount hv, ?_⟩
  rw [transfer_ok_balance s caller caller caller amount hv, balAt_mInsert_self,
    balAt_mInsert_self]
  have hlt := balance_of_lt_of_WF s hwf caller
  have heq : s.balance_of caller - amount + amount = s.balance_of caller := by omega
  rw [heq, Nat.mod_eq_of_lt hlt]

theorem self_transfer_neutral_witness :
    ((Erc20.new 0 50).1.transfer 0 0 50).1 = Except.ok () ∧
    ((Erc20.new 0 50).1.transfer 0 0 50).2.1.balance_of 0 =
      (Erc20.new 0 50).1.balance_of 0 :=
  self_transfer_neutral (Erc20.new 0 50).1 0 50 (by decide) (by decide)

/-- C5: overflow safety.  On a state satisfying the conservation invariant,
when the balance check passes, the debit cannot underflow
(`value ≤ from_balance`) and the credit cannot overflow: the post-debit balance
of `to` plus `value` is at most `total_supply`, which is a u128 value, so the
reduction modulo `2 ^ 128` performed by u128 addition is the identity. -/
theorem transfer_no_overflow (s : Erc20) (caller q v : Nat)
    (hinv : LedgerInv s) (hok : ¬ s.balance_of caller < v) :
    v ≤ s.balance_of caller ∧
    balAt (mInsert s.balances caller (s.balance_of caller - v)) q + v ≤ s.total_supply ∧
    s.total_supply < UINT128_LIMIT ∧
    (balAt (mInsert s.balances caller (s.balance_of caller - v)) q + v) % UINT128_LIMIT =
      balAt (mInsert s.balances caller (s.balance_of caller - v)) q + v := by
  obtain ⟨hsum, hnd, hts⟩ := hinv
  have hbound := transfer_success_sum s caller q v hnd hok
  exact ⟨by omega, by omega, hts, Nat.mod_eq_of_lt (by omega)⟩

theorem transfer_no_overflow_witness :
    30 ≤ (Erc20.new 0 100).1.balance_of 0 ∧
    balAt (mInsert (Erc20.new 0 100).1.balances 0
      ((Erc20.new 0 100).1.balance_of 0 - 30)) 1 + 30 ≤ (Erc20.new 0 100).1.total_supply ∧
    (Erc20.new 0 100).1.total_supply < UINT128_LIMIT ∧
    (balAt (mInsert (Erc20.new 0 100).1.balances 0
      ((Erc20.new 0 100).1.balance_of 0 - 30)) 1 + 30) % UINT128_LIMIT =
      balAt (mInsert (Erc20.new 0 100).1.balances 0
        ((Erc20.new 0 100).1.balance_of 0 - 30)) 1 + 30 :=
  transfer_no_overflow (Erc20.new 0 100).1 0 1 30 (by decide) (by decide)

/-- C6: construction always succeeds (it is a total function); the resulting
`balances` mapping holds exactly the single entry `(caller, total_supply)`;
the caller reads back the full supply and every other account reads zero; and
exactly one mint record `Transfer { from: None, to: Some(caller), value }` is
emitted. -/
theorem new_postcondition (caller ts : Nat) :
    (Erc20.new caller ts).1.balances = [(caller, ts)] ∧
    (Erc20.new caller ts).1.total_supply = ts ∧
    (Erc20.new caller ts).1.balance_of caller = ts ∧
    (∀ a, a ≠ caller → (Erc20.new caller ts).1.balance_of a = 0) ∧
    (Erc20.new caller ts).2 = [{ «from» := none, «to» := some caller, value := ts }] := by
  refine ⟨rfl, rfl, ?_, ?_, rfl⟩
  · show balAt (mInsert [] caller ts) caller = ts
    exact balAt_mInsert_self [] caller ts
  · intro a ha
    show balAt (mInsert [] caller ts) a = 0
    rw [balAt_mInsert_ne [] caller a ts ha]
    rfl

theorem new_postcondition_witness :
    (Erc20.new 3 777).1.balances = [(3, 777)] ∧
    (Erc20.new 3 777).1.total_supply = 777 ∧
    (Erc20.new 3 777).1.balance_of 3 = 777 ∧
    (Erc20.new 3 777).1.balance_of 5 = 0 ∧
    (Erc20.new 3 777).2 = [{ «from» := none, «to» := some 3, value := 777 }] := by
  have h := new_postcondition 3 777
  exact ⟨h.1, h.2.1, h.2.2.1, h.2.2.2.1 5 (by decide), h.2.2.2.2⟩

/-- C7: `balance_of` returns the mapping's stored value for the account, or
zero when the key is absent.  In this embedding it consumes the state and
returns only a number, so it cannot modify the state or fail, and two calls
with no intervening mutation denote the same value. -/
theorem balance_of_pure_read (s : Erc20) (account : Nat) :
    (mGet s.balances account = none → s.balance_of account = 0) ∧
    (∀ v, mGet s.balances account = some v → s.balance_of account = v) := by
  constructor
  · intro h
    unfold Erc20.balance_of
    rw [h]
    rfl
  · intro v h
    unfold Erc20.balance_of
    rw [h]
    rfl

theorem balance_of_pure_read_witness :
    (Erc20.new 0 7).1.balance_of 0 = 7 ∧ (Erc20.new 0 7).1.balance_of 5 = 0 :=
  ⟨(balance_of_pure_read (Erc20.new 0 7).1 0).2 7 (by decide),
   (balance_of_pure_read (Erc20.new 0 7).1 5).1 (by decide)⟩

/-- C8: `total_supply` is fixed at construction and never changed by any
`transfer` call, successful or failed; the `total_supply()` getter is a pure
read of that stored field. -/
theorem total_supply_immutable (s : Erc20) (caller q v : Nat) :
    (s.transfer caller q v).2.1.total_supply = s.total_supply ∧
    s.totalSupply = s.total_supply ∧
    (Erc20.new caller v).1.total_supply = v := by
  refine ⟨?_, rfl, rfl⟩
  by_cases hv : s.balance_of caller < v
  · rw [transfer_err_state s caller q v hv]
  · rw [transfer_ok_state s caller q v hv]

/-- C9: a successful `transfer` emits exactly one record
`Transfer { from: Some(caller), to: Some(to), value }`; a `transfer` that fails
with `InsufficientBalance` emits no record at all. -/
theorem transfer_event_emission (s : Erc20) (caller q v : Nat) :
    ((s.transfer caller q v).1 = Except.ok () →
      (s.transfer caller q v).2.2 =
        [{ «from» := some caller, «to» := some q, value := v }]) ∧
    ((s.transfer caller q v).1 = Except.error Error.InsufficientBalance →
      (s.transfer caller q v).2.2 = []) := by
  by_cases hv : s.balance_of caller < v
  · rw [transfer_err_result s caller q v hv, transfer_err_events s caller q v hv]
    exact ⟨fun he => (nomatch he), fun _ => rfl⟩
  · rw [transfer_ok_result s caller q v hv, transfer_ok_events s caller q v hv]
    exact ⟨fun _ => rfl, fun he => (nomatch he)⟩

theorem transfer_event_emission_witness :
    ((Erc20.new 0 100).1.transfer 0 1 30).2.2 =
      [{ «from» := some 0, «to» := some 1, value := 30 }] ∧
    ((Erc20.new 0 100).1.transfer 0 1 500).2.2 = [] :=
  ⟨(transfer_event_emission (Erc20.new 0 100).1 0 1 30).1 (by rfl),
   (transfer_event_emission (Erc20.new 0 100).1 0 1 500).2 (by rfl)⟩

/-- C10: a zero-amount `transfer` always succeeds, leaves every observable
balance unchanged, and leaves explicit entries stored for both `caller` and
`to` holding their current balances — in particular explicit zero-valued
entries when those accounts were absent from the mapping.  The state is assumed
u128 well-formed (`WF`), as every reachable state is by `reachable_WF`. -/
theorem zero_transfer_ok (s : Erc20) (caller q : Nat) (hwf : WF s) :
    (s.transfer caller q 0).1 = Except.ok () ∧
    (∀ a, (s.transfer caller q 0).2.1.balance_of a = s.balance_of a) ∧
    mGet (s.transfer caller q 0).2.1.balances caller = some (s.balance_of caller) ∧
    mGet (s.transfer caller q 0).2.1.balances q = some (s.balance_of q) ∧
    (mGet s.balances caller = none →
      mGet (s.transfer caller q 0).2.1.balances caller = some 0) ∧
    (mGet s.balances q = none →
      mGet (s.transfer caller q 0).2.1.balances q = some 0) := by
  have hv : ¬ s.balance_of caller < 0 := by omega
  have hwq := balance_of_lt_of_WF s hwf q
  have hAq : balAt (mInsert s.balances caller (s.balance_of caller - 0)) q =
      s.balance_of q := by
    by_cases hq : q = caller
    · rw [hq, balAt_mInsert_self, Nat.sub_zero]
    · rw [balAt_mInsert_ne _ _ _ _ hq, ← balance_of_eq_balAt]
  have hW : (balAt (mInsert s.balances caller (s.balance_of caller - 0)) q + 0) %
      UINT128_LIMIT = s.balance_of q := by
    rw [hAq, Nat.add_zero, Nat.mod_eq_of_lt hwq]
  have hz : ∀ a, mGet s.balances a = none → s.balance_of a = 0 := by
    intro a h
    unfold Erc20.balance_of
    rw [h]
    rfl
  have hkey : ∀ a, a = caller ∨ a = q →
      mGet (s.transfer caller q 0).2.1.balances a = some (s.balance_of a) := by
    intro a ha
    rw [transfer_ok_mGet s caller q a 0 hv]
    by_cases haq : a = q
    · rw [haq, mGet_mInsert_self, hW]
    · have hac : a = caller := ha.resolve_right haq
      rw [mGet_mInsert_ne _ _ _ _ haq, hac, mGet_mInsert_self, Nat.sub_zero]
  refine ⟨transfer_ok_result s caller q 0 hv, ?_, hkey caller (Or.inl rfl),
    hkey q (Or.inr rfl), fun h => ?_, fun h => ?_⟩
  · intro a
    rw [transfer_ok_balance s caller q a 0 hv]
    by_cases haq : a = q
    · rw [haq, balAt_mInsert_self, hW]
    · rw [balAt_mInsert_ne _ _ _ _ haq]
      by_cases hac : a = caller
      · rw [hac, balAt_mInsert_self, Nat.sub_zero]
      · rw [balAt_mInsert_ne _ _ _ _ hac, ← balance_of_eq_balAt]
  · rw [hkey caller (Or.inl rfl), hz caller h]
  · rw [hkey q (Or.inr rfl), hz q h]

theorem zero_transfer_ok_witness :
    ((Erc20.new 0 5).1.transfer 1 2 0).1 = Except.ok () ∧
    mGet ((Erc20.new 0 5).1.transfer 1 2 0).2.1.balances 1 = some 0 ∧
    mGet ((Erc20.new 0 5).1.transfer 1 2 0).2.1.balances 2 = some 0 ∧
    ((Erc20.new 0 5).1.transfer 1 2 0).2.1.balance_of 0 = (Erc20.new 0 5).1.balance_of 0 :=
  ⟨(zero_transfer_ok (Erc20.new 0 5).1 1 2 (by decide)).1,
   (zero_transfer_ok (Erc20.new 0 5).1 1 2 (by decide)).2.2.2.2.1 (by decide),
   (zero_transfer_ok (Erc20.new 0 5).1 1 2 (by decide)).2.2.2.2.2 (by decide),
   (zero_transfer_ok (Erc20.new 0 5).1 1 2 (by decide)).2.1 0⟩
